import Mathlib

/-!
Verification of the fluent-bit filter compiler in
`confgenerator/filter/filter.go`.

The file shallowly embeds the Go code: a fluent-bit component is a kind
plus its configuration entries (listed in the order the Go source writes
them), and the public entry points `AllComponents`, `Components`,
`AllFluentConfig`, `MatchesAny`, `NewFilter` and `NewMember` are
translated function by function.  The expression AST and its compiler
live in the `internal/ast` package, which is outside the file under
study; those parts are modelled from the specification and are marked as
such in their doc comments.
-/

namespace OpsAgent

/-- Embeds `fluentbit.Component`: a stage kind (always "FILTER" here) and
its key/value configuration.  The Go code stores the configuration in a
`map[string]string`; we keep the entries in the order the source literal
writes them. -/
structure Component where
  kind : String
  config : List (String × String)
deriving Repr, DecidableEq

/-- Modelled from the spec: the expression AST produced by the external
parser (`internal/ast`, not part of the file under study), a tagged union
over field restrictions, negation, conjunction and disjunction. -/
inductive Expression where
  | fieldRestriction (operator : String) (lhs : List String) (rhs : String)
  | negation (e : Expression)
  | conjunction (es : List Expression)
  | disjunction (es : List Expression)
deriving Repr

/-- Wraps a string in double quotes for use inside generated script text. -/
def quoteStr (s : String) : String := "\"" ++ s ++ "\""

mutual

/-- Modelled from the spec: the expression compiler of `internal/ast`
(not part of the file under study).  Given a stream tag and a naming
prefix it returns the stages that must run inside the shared envelope
together with a script expression for the node's boolean value.  A plain
field comparison contributes no stages and a direct comparison
expression; a regex comparison (which the embedded script language
cannot evaluate, per the source's TODO comment) contributes one modify
stage that sets the prefixed match variable.  Negation negates the child
expression; conjunction and disjunction compile each child under a
structurally distinct sub-prefix, concatenate the child stages in order
and join the child expressions. -/
def Expression.FluentConfig : Expression → String → String → List Component × String
  | .fieldRestriction op lhs rhs, tag, pfx =>
    if op == "=~" then
      ([⟨"FILTER", [("Name", "modify"), ("Match", tag),
          ("Condition", "Key_value_matches " ++ String.intercalate "." lhs ++ " " ++ rhs),
          ("Set", pfx ++ " 1")]⟩],
       "(record[" ++ quoteStr pfx ++ "] ~= nil)")
    else
      ([], "(record[" ++ quoteStr (String.intercalate "." lhs) ++ "] " ++ op ++ " "
            ++ quoteStr rhs ++ ")")
  | .negation e, tag, pfx =>
    let r := Expression.FluentConfig e tag pfx
    (r.1, "(not " ++ r.2 ++ ")")
  | .conjunction es, tag, pfx =>
    let r := fluentChildren es tag pfx 0
    (r.1, "(" ++ String.intercalate " and " r.2 ++ ")")
  | .disjunction es, tag, pfx =>
    let r := fluentChildren es tag pfx 0
    (r.1, "(" ++ String.intercalate " or " r.2 ++ ")")

/-- Modelled from the spec: compiles a list of sibling sub-expressions,
giving child `i` the sub-prefix `pfx_i`, and collects their stages and
script expressions in child order. -/
def fluentChildren : List Expression → String → String → Nat → List Component × List String
  | [], _, _, _ => ([], [])
  | e :: es, tag, pfx, i =>
    let r1 := Expression.FluentConfig e tag (pfx ++ "_" ++ toString i)
    let r2 := fluentChildren es tag pfx (i + 1)
    (r1.1 ++ r2.1, r1.2 :: r2.2)

end

/-- Modelled from the spec: the stage-list view of the expression
compiler used by the nest/grep/lift path (`ast.Expression.Components` is
outside the file under study); it emits the stages of the compiled
expression under the given match-variable name. -/
def Expression.Components (e : Expression) (tag key : String) : List Component :=
  (e.FluentConfig tag key).1

/-- Embeds the `Filter` struct: it wraps exactly one root expression. -/
structure Filter where
  expr : Expression

/-- Embeds the `Member` struct: it wraps the field path (`ast.Target`) of
a bare field reference. -/
structure Member where
  target : List String

/-- Embeds `strings.ReplaceAll(tag, ".", "_")`: since the pattern is the
single character `.`, replacing all occurrences is the same as mapping
each character, sending `.` to `_`. -/
def sanitizeTag (tag : String) : String :=
  String.mk (tag.data.map fun c => if c == '.' then '_' else c)

/-- The per-tag match variable `__match_<sanitized tag>` computed in
`innerComponents` and `AllComponents`. -/
def matchVar (tag : String) : String := "__match_" ++ sanitizeTag tag

/-- The grouping stage emitted by `AllComponents` and `AllFluentConfig`:
nest every top-level field under `record`. -/
def fbNest (tag : String) : Component :=
  ⟨"FILTER", [("Name", "nest"), ("Match", tag), ("Operation", "nest"),
    ("Nest_under", "record"), ("Wildcard", "*")]⟩

/-- The ungrouping stage emitted by `AllComponents` and
`AllFluentConfig`: lift the fields nested under `record` back up. -/
def fbLift (tag : String) : Component :=
  ⟨"FILTER", [("Name", "nest"), ("Match", tag), ("Operation", "lift"),
    ("Nested_under", "record")]⟩

/-- The grep stage of `AllComponents`; `parity` is `Exclude` when the
exclusion flag is set and `Regex` otherwise. -/
def grepStage (tag : String) (isExclusionFilter : Bool) : Component :=
  ⟨"FILTER", [("Name", "grep"), ("Match", tag),
    ((if isExclusionFilter then "Exclude" else "Regex"), matchVar tag ++ " 1")]⟩

/-- The match-variable removal stage of `AllComponents`. -/
def removeStage (tag : String) : Component :=
  ⟨"FILTER", [("Name", "modify"), ("Match", tag), ("Remove_wildcard", matchVar tag)]⟩

/-- Embeds `(*Filter).innerComponents`: the stages intended to sit
between the nest/grep/lift stages, compiled under the per-tag match
variable. -/
def Filter.innerComponents (f : Filter) (tag : String) : List Component :=
  f.expr.Components tag (matchVar tag)

/-- Embeds `AllComponents`: one shared nest stage, every filter's inner
stages in list order, then the grep stage (keyed by the exclusion flag),
the match-variable removal stage and the lift stage. -/
def AllComponents (tag : String) (filters : List Filter) (isExclusionFilter : Bool) :
    List Component :=
  fbNest tag :: ((filters.map fun f => f.innerComponents tag).flatten
    ++ [grepStage tag isExclusionFilter, removeStage tag, fbLift tag])

/-- Embeds `(*Filter).Components`: delegates to `AllComponents` with a
one-element filter list. -/
def Filter.Components (f : Filter) (tag : String) (isExclusionFilter : Bool) :
    List Component :=
  AllComponents tag [f] isExclusionFilter

/-- Embeds `(*Filter).innerFluentConfig`: compiles the wrapped
expression for the script path. -/
def Filter.innerFluentConfig (f : Filter) (tag pfx : String) : List Component × String :=
  f.expr.FluentConfig tag pfx

/-- Embeds the loop body of `AllFluentConfig`: entry `i` holding name
`k` and filter `f` contributes the filter's inner stages compiled under
the positional prefix `__match_<i>` together with the script line
`local <k> = <expr>\n`. -/
def fluentEntry (tag : String) (i : Nat) (k : String) (f : Filter) :
    List Component × String :=
  let r := f.innerFluentConfig tag ("__match_" ++ toString i)
  (r.1, "local " ++ k ++ " = " ++ r.2 ++ "\n")

/-- The per-entry results of the `AllFluentConfig` loop, in enumeration
order. -/
def fluentResults (tag : String) (filters : List (String × Filter)) :
    List (List Component × String) :=
  filters.enum.map fun p => fluentEntry tag p.1 p.2.1 p.2.2

/-- The concatenation of all filters' inner stages accumulated by the
`AllFluentConfig` loop. -/
def fluentStages (tag : String) (filters : List (String × Filter)) : List Component :=
  ((fluentResults tag filters).map Prod.fst).flatten

/-- The script text accumulated by the `AllFluentConfig` loop: one
`local` declaration per name, in enumeration order. -/
def fluentLua (tag : String) (filters : List (String × Filter)) : String :=
  String.join ((fluentResults tag filters).map Prod.snd)

/-- The cleanup snippet `AllFluentConfig` appends when stages were
emitted: a loop deleting every record field whose name matches the
synthetic prefix pattern. -/
def luaCleanup : String :=
  "\nfor k, v in pairs(record) do\n  if string.match(k, \"^__match_.+\") then\n    record[k] = nil\n  end\nend\n"

/-- Embeds `AllFluentConfig`.  The Go code iterates its
`map[string]*Filter` argument with `for k := range filters`, whose order
the language leaves unspecified; the `filters` argument here is the
key/value pairs of that map in one such enumeration order.  Entry `i`
is compiled under the positional prefix `__match_<i>` and contributes
one `local` script line; if no entry contributed stages, only the script
text is returned, otherwise the stages are wrapped in one nest/lift pair
and the cleanup snippet is appended to the script. -/
def AllFluentConfig (tag : String) (filters : List (String × Filter)) :
    List Component × String :=
  let c := fluentStages tag filters
  let lua := fluentLua tag filters
  if c.isEmpty then ([], lua)
  else (fbNest tag :: (c ++ [fbLift tag]), lua ++ luaCleanup)

/-- Embeds `MatchesAny`: starting from an empty disjunction, append each
filter's root expression in list order. -/
def MatchesAny (filters : List Filter) : Filter :=
  ⟨.disjunction (filters.foldl (fun d f => d ++ [f.expr]) [])⟩

/-- Modelled from the spec: classification of a parse result as a full
expression.  The parser and `internal/ast` are outside the file under
study; per the spec, a bare field reference (a restriction whose
operator is `GLOBAL`) is not a full expression, and every other tree
is. -/
def isExpression : Expression → Bool
  | .fieldRestriction op _ _ => !(op == "GLOBAL")
  | _ => true

/-- Embeds the classification logic of `NewFilter` applied to the
front-end parse result (`p.Parse`, an external collaborator, yields
either an error or a tree): a parse error is returned unchanged, a
result classified as a full expression is wrapped in a `Filter`, and any
other result produces a descriptive error. -/
def NewFilter : Except String Expression → Except String Filter
  | .error e => .error e
  | .ok out =>
    if isExpression out then .ok ⟨out⟩
    else .error ("not an expression: " ++ reprStr out)

/-- Embeds the classification logic of `NewMember` applied to the
front-end parse result: a parse error is returned unchanged, a
restriction with operator `GLOBAL` (a bare field reference) yields a
`Member` wrapping its field path, and anything else produces a
descriptive error. -/
def NewMember : Except String Expression → Except String Member
  | .error e => .error e
  | .ok out =>
    match out with
    | .fieldRestriction op lhs _ =>
      if op == "GLOBAL" then .ok ⟨lhs⟩
      else .error ("not a field: " ++ reprStr out)
    | _ => .error ("not a field: " ++ reprStr out)

/-- The parse of `severity = "ERROR"`: a plain field comparison. -/
def sevFilter : Filter := ⟨.fieldRestriction "=" ["severity"] "ERROR"⟩

/-- A filter whose root is a regex comparison, which compiles to a
non-empty inner stage list. -/
def regexFilter : Filter := ⟨.fieldRestriction "=~" ["message"] "x.*"⟩

/-- A stage is a grouping stage when its configuration names the nest
filter with the nest operation. -/
def isGrouping (c : Component) : Bool :=
  (c.config.lookup "Name" == some "nest") && (c.config.lookup "Operation" == some "nest")

/-- A stage is an ungrouping stage when its configuration names the nest
filter with the lift operation. -/
def isUngrouping (c : Component) : Bool :=
  (c.config.lookup "Name" == some "nest") && (c.config.lookup "Operation" == some "lift")

mutual

theorem fluentConfig_stages_modify :
    ∀ (e : Expression) (tag pfx : String) (c : Component),
      c ∈ (Expression.FluentConfig e tag pfx).1 → c.config.lookup "Name" = some "modify"
  | .fieldRestriction op lhs rhs, tag, pfx, c, h => by
    by_cases hop : (op == "=~") = true
    · simp only [Expression.FluentConfig, hop, if_true, List.mem_singleton] at h
      subst h
      rfl
    · simp [Expression.FluentConfig, hop] at h
  | .negation e, tag, pfx, c, h =>
    fluentConfig_stages_modify e tag pfx c (by simpa [Expression.FluentConfig] using h)
  | .conjunction es, tag, pfx, c, h =>
    fluentChildren_stages_modify es tag pfx 0 c (by simpa [Expression.FluentConfig] using h)
  | .disjunction es, tag, pfx, c, h =>
    fluentChildren_stages_modify es tag pfx 0 c (by simpa [Expression.FluentConfig] using h)

theorem fluentChildren_stages_modify :
    ∀ (es : List Expression) (tag pfx : String) (i : Nat) (c : Component),
      c ∈ (fluentChildren es tag pfx i).1 → c.config.lookup "Name" = some "modify"
  | [], _, _, _, c, h => absurd h (by simp [fluentChildren])
  | e :: es, tag, pfx, i, c, h => by
    simp only [fluentChildren, List.mem_append] at h
    rcases h with h | h
    · exact fluentConfig_stages_modify e tag (pfx ++ "_" ++ toString i) c h
    · exact fluentChildren_stages_modify es tag pfx (i + 1) c h

end

theorem modify_not_envelope (c : Component)
    (h : c.config.lookup "Name" = some "modify") :
    isGrouping c = false ∧ isUngrouping c = false := by
  have hne : ((some "modify" : Option String) == some "nest") = false := by decide
  simp [isGrouping, isUngrouping, h, hne]

theorem innerComponents_modify (f : Filter) (tag : String) (c : Component)
    (h : c ∈ f.innerComponents tag) : c.config.lookup "Name" = some "modify" :=
  fluentConfig_stages_modify f.expr tag (matchVar tag) c h

theorem inner_countP_grouping (tag : String) (fs : List Filter) :
    ((fs.map fun f => f.innerComponents tag).flatten).countP isGrouping = 0 := by
  refine List.countP_eq_zero.mpr ?_
  intro c hc
  rcases List.mem_flatten.mp hc with ⟨l, hl, hcl⟩
  rcases List.mem_map.mp hl with ⟨f, _, rfl⟩
  simp [(modify_not_envelope c (innerComponents_modify f tag c hcl)).1]

theorem inner_countP_ungrouping (tag : String) (fs : List Filter) :
    ((fs.map fun f => f.innerComponents tag).flatten).countP isUngrouping = 0 := by
  refine List.countP_eq_zero.mpr ?_
  intro c hc
  rcases List.mem_flatten.mp hc with ⟨l, hl, hcl⟩
  rcases List.mem_map.mp hl with ⟨f, _, rfl⟩
  simp [(modify_not_envelope c (innerComponents_modify f tag c hcl)).2]

/-- C10: for every filter, tag and exclusion flag, `Components` returns
exactly the stage list of `AllComponents` applied to the one-element
filter list: the single-filter entry point is definitionally the
multi-filter entry point. -/
theorem components_delegates (f : Filter) (tag : String) (b : Bool) :
    f.Components tag b = AllComponents tag [f] b := rfl

/-- C9: for every tag and either exclusion flag, `AllComponents` on an
empty filter list still returns the full envelope shape — grouping,
grep, field removal, ungrouping, in that order — and never an empty
stage list. -/
theorem allComponents_empty_filters (tag : String) (b : Bool) :
    AllComponents tag [] b = [fbNest tag, grepStage tag b, removeStage tag, fbLift tag] ∧
      (AllComponents tag [] b).isEmpty = false :=
  ⟨rfl, rfl⟩

/-- C5: for every tag and filter list, toggling the exclusion flag
changes exactly the one configuration entry of the grep stage — the
`Regex` key becomes `Exclude`, with the same value — and leaves the
stage list identical everywhere else. -/
theorem allComponents_parity (tag : String) (fs : List Filter) :
    ∃ pre post v,
      AllComponents tag fs false =
        pre ++ (⟨"FILTER", [("Name", "grep"), ("Match", tag), ("Regex", v)]⟩ :: post) ∧
      AllComponents tag fs true =
        pre ++ (⟨"FILTER", [("Name", "grep"), ("Match", tag), ("Exclude", v)]⟩ :: post) := by
  refine ⟨fbNest tag :: (fs.map fun f => f.innerComponents tag).flatten,
    [removeStage tag, fbLift tag], matchVar tag ++ " 1", ?_, ?_⟩ <;>
    simp [AllComponents, grepStage]

/-- C4: for every tag, filter list and exclusion flag, the stage list of
`AllComponents` is non-empty, starts with the grouping stage, ends with
the ungrouping stage for the same tag, contains exactly one grouping and
one ungrouping stage, and places the grep and field-removal stages after
all inner stages and before the ungrouping stage. -/
theorem allComponents_envelope (tag : String) (fs : List Filter) (b : Bool) :
    (AllComponents tag fs b).isEmpty = false ∧
    (AllComponents tag fs b).head? = some (fbNest tag) ∧
    (AllComponents tag fs b).getLast? = some (fbLift tag) ∧
    (AllComponents tag fs b).countP isGrouping = 1 ∧
    (AllComponents tag fs b).countP isUngrouping = 1 ∧
    AllComponents tag fs b = fbNest tag :: ((fs.map fun f => f.innerComponents tag).flatten
      ++ [grepStage tag b, removeStage tag, fbLift tag]) := by
  have hg1 : isGrouping (fbNest tag) = true := rfl
  have hg2 : isGrouping (grepStage tag b) = false := rfl
  have hg3 : isGrouping (removeStage tag) = false := rfl
  have hg4 : isGrouping (fbLift tag) = false := rfl
  have hu1 : isUngrouping (fbNest tag) = false := rfl
  have hu2 : isUngrouping (grepStage tag b) = false := rfl
  have hu3 : isUngrouping (removeStage tag) = false := rfl
  have hu4 : isUngrouping (fbLift tag) = true := rfl
  refine ⟨rfl, rfl, ?_, ?_, ?_, rfl⟩
  · show (fbNest tag :: ((fs.map fun f => f.innerComponents tag).flatten
      ++ [grepStage tag b, removeStage tag, fbLift tag])).getLast? = some (fbLift tag)
    rw [show fbNest tag :: ((fs.map fun f => f.innerComponents tag).flatten
        ++ [grepStage tag b, removeStage tag, fbLift tag]) =
        (fbNest tag :: (fs.map fun f => f.innerComponents tag).flatten)
        ++ [grepStage tag b, removeStage tag, fbLift tag] by simp,
      List.getLast?_append]
    · rfl
  · show ((fbNest tag :: ((fs.map fun f => f.innerComponents tag).flatten
      ++ [grepStage tag b, removeStage tag, fbLift tag]))).countP isGrouping = 1
    simp [List.countP_cons, List.countP_append, hg1, hg2, hg3, hg4,
      inner_countP_grouping tag fs]
  · show ((fbNest tag :: ((fs.map fun f => f.innerComponents tag).flatten
      ++ [grepStage tag b, removeStage tag, fbLift tag]))).countP isUngrouping = 1
    simp [List.countP_cons, List.countP_append, hu1, hu2, hu3, hu4,
      inner_countP_ungrouping tag fs]

/-- C3 counterexample: the filter parsed from `severity = "ERROR"`
compiled on stream `app.log` in inclusion mode yields a stage list of 4
entries, not 5 as claimed: the plain field comparison contributes zero
inner stages, leaving only the grouping, grep, field-removal and
ungrouping stages. -/
theorem scenario_length_counterexample :
    (sevFilter.Components "app.log" false).length = 4 ∧
      ((sevFilter.Components "app.log" false).length == 5) = false := by
  constructor <;> rfl

/-- C3 amended: the filter parsed from `severity = "ERROR"` compiled on
stream `app.log` in inclusion mode yields exactly the 4-entry list:
grouping stage, zero inner stages, grep stage whose inclusion key
references `__match_app_log`, field-removal stage, ungrouping stage. -/
theorem scenario_stage_list :
    sevFilter.Components "app.log" false =
      [fbNest "app.log",
       ⟨"FILTER", [("Name", "grep"), ("Match", "app.log"), ("Regex", "__match_app_log 1")]⟩,
       ⟨"FILTER", [("Name", "modify"), ("Match", "app.log"),
         ("Remove_wildcard", "__match_app_log")]⟩,
       fbLift "app.log"] := by
  rfl

/-- C2 counterexample: for the tag `a-b`, whose character `-` is not
alphanumeric and not a dot, the match variable is `__match_a-b`: the
non-alphanumeric character `-` survives into the match variable name
referenced by the grep stage, contradicting the claim that every
non-alphanumeric character is replaced. -/
theorem matchVar_dash_counterexample :
    matchVar "a-b" = "__match_a-b" ∧
      ((matchVar "a-b").data.contains '-') = true ∧
      grepStage "a-b" false =
        ⟨"FILTER", [("Name", "grep"), ("Match", "a-b"), ("Regex", "__match_a-b 1")]⟩ := by
  refine ⟨rfl, ?_, rfl⟩
  decide

/-- C2 amended: the per-tag match variable is `__match_` followed by the
tag with every `.` (and only `.`) replaced by `_`: no `.` remains in the
sanitized part, and every character of the sanitized part is either a
character of the tag or the replacement `_`. -/
theorem matchVar_sanitizes_dots (tag : String) :
    matchVar tag = "__match_" ++ sanitizeTag tag ∧
      '.' ∉ (sanitizeTag tag).data ∧
      ∀ c ∈ (sanitizeTag tag).data, c ∈ tag.data ∨ c = '_' := by
  refine ⟨rfl, ?_, ?_⟩
  · intro hmem
    rcases List.mem_map.mp hmem with ⟨a, _, hfa⟩
    by_cases ha : (a == '.') = true
    · simp [ha] at hfa
    · simp [ha] at hfa
      subst hfa
      simp at ha
  · intro c hc
    rcases List.mem_map.mp hc with ⟨a, ha, hfa⟩
    by_cases hdot : (a == '.') = true
    · right
      rw [if_pos hdot] at hfa
      exact hfa.symm
    · left
      rw [if_neg hdot] at hfa
      subst hfa
      exact ha

/-- C2 amended, witness at the tag `a.b`. -/
theorem matchVar_sanitizes_dots_witness :
    matchVar "a.b" = "__match_" ++ sanitizeTag "a.b" ∧
      '.' ∉ (sanitizeTag "a.b").data ∧
      ∀ c ∈ (sanitizeTag "a.b").data, c ∈ "a.b".data ∨ c = '_' :=
  matchVar_sanitizes_dots "a.b"

/-- C1: the Go code enumerates its `map[string]*Filter` argument with
`for k := range filters`, an order the language leaves unspecified;
enumerating the same two-entry mapping in its two possible orders
produces different script text (the `local` declarations swap), so the
emitted script is not reproducible across calls with the same tag and
the same mapping.  The permutation conjunct records that both
enumerations list the same mapping. -/
theorem allFluentConfig_order_dependent :
    List.Perm [("a", sevFilter), ("b", sevFilter)] [("b", sevFilter), ("a", sevFilter)] ∧
      ((AllFluentConfig "t" [("a", sevFilter), ("b", sevFilter)]).2 ==
        (AllFluentConfig "t" [("b", sevFilter), ("a", sevFilter)]).2) = false := by
  refine ⟨List.Perm.swap ("b", sevFilter) ("a", sevFilter) [], ?_⟩
  decide

theorem fluentStages_modify (tag : String) (fs : List (String × Filter))
    (c : Component) (h : c ∈ fluentStages tag fs) :
    c.config.lookup "Name" = some "modify" := by
  rcases List.mem_flatten.mp h with ⟨l, hl, hcl⟩
  rcases List.mem_map.mp hl with ⟨r, hr, rfl⟩
  rcases List.mem_map.mp hr with ⟨p, _, rfl⟩
  exact fluentConfig_stages_modify p.2.2.expr tag ("__match_" ++ toString p.1) c hcl

/-- C6: for every tag and enumeration of the name-to-filter mapping, the
script text is exactly the concatenated per-name `local` declarations
when the combined inner stage list is empty, with no stages, no envelope
and no cleanup loop; and when it is non-empty, the stage list wraps all
inner stages in exactly one grouping and one ungrouping stage and the
script text ends with the cleanup loop deleting every field matching the
synthetic `__match_` prefix pattern. -/
theorem allFluentConfig_envelope (tag : String) (fs : List (String × Filter)) :
    fluentLua tag fs =
      String.join (fs.enum.map fun p =>
        "local " ++ p.2.1 ++ " = " ++ (p.2.2.innerFluentConfig tag ("__match_" ++ toString p.1)).2
          ++ "\n") ∧
    (fluentStages tag fs = [] → AllFluentConfig tag fs = ([], fluentLua tag fs)) ∧
    (fluentStages tag fs ≠ [] →
      AllFluentConfig tag fs =
        (fbNest tag :: (fluentStages tag fs ++ [fbLift tag]), fluentLua tag fs ++ luaCleanup) ∧
      (AllFluentConfig tag fs).1.countP isGrouping = 1 ∧
      (AllFluentConfig tag fs).1.countP isUngrouping = 1) := by
  refine ⟨?_, ?_, ?_⟩
  · unfold fluentLua fluentResults
    rw [List.map_map]
    refine congrArg String.join (List.map_congr_left ?_)
    intro p _
    rfl
  · intro h
    simp [AllFluentConfig, h]
  · intro h
    have hE : (fluentStages tag fs).isEmpty = false := by
      cases hE : (fluentStages tag fs).isEmpty
      · rfl
      · exact absurd (List.isEmpty_iff.mp hE) h
    have heq : AllFluentConfig tag fs =
        (fbNest tag :: (fluentStages tag fs ++ [fbLift tag]), fluentLua tag fs ++ luaCleanup) := by
      simp [AllFluentConfig, hE]
    have hcnt : (fluentStages tag fs).countP isGrouping = 0 ∧
        (fluentStages tag fs).countP isUngrouping = 0 := by
      constructor <;>
        · refine List.countP_eq_zero.mpr ?_
          intro c hc
          have := modify_not_envelope c (fluentStages_modify tag fs c hc)
          simp [this.1, this.2]
    have hg1 : isGrouping (fbNest tag) = true := rfl
    have hg4 : isGrouping (fbLift tag) = false := rfl
    have hu1 : isUngrouping (fbNest tag) = false := rfl
    have hu4 : isUngrouping (fbLift tag) = true := rfl
    refine ⟨heq, ?_, ?_⟩
    · rw [heq]
      simp [List.countP_cons, List.countP_append, hg1, hg4, hcnt.1]
    · rw [heq]
      simp [List.countP_cons, List.countP_append, hu1, hu4, hcnt.2]

/-- C6 witness: one mapping whose single plain comparison yields no
stages (only the `local` declaration), and one whose regex comparison
yields stages and therefore the shared envelope and the cleanup
snippet. -/
theorem allFluentConfig_envelope_witness :
    AllFluentConfig "t" [("a", sevFilter)] = ([], fluentLua "t" [("a", sevFilter)]) ∧
      AllFluentConfig "t" [("b", regexFilter)] =
        (fbNest "t" :: (fluentStages "t" [("b", regexFilter)] ++ [fbLift "t"]),
         fluentLua "t" [("b", regexFilter)] ++ luaCleanup) :=
  ⟨(allFluentConfig_envelope "t" [("a", sevFilter)]).2.1 (by decide),
   ((allFluentConfig_envelope "t" [("b", regexFilter)]).2.2 (by decide)).1⟩

/-- C7: `MatchesAny` returns a filter whose root expression is the
disjunction of the input filters' root expressions, in input order; the
construction is a pure fold that appends each expression and performs no
compilation. -/
theorem matchesAny_disjunction (fs : List Filter) :
    (MatchesAny fs).expr = .disjunction (fs.map Filter.expr) := by
  have key : ∀ (l : List Filter) (acc : List Expression),
      l.foldl (fun d f => d ++ [f.expr]) acc = acc ++ l.map Filter.expr := by
    intro l
    induction l with
    | nil => intro acc; simp
    | cons f l ih => intro acc; simp [ih]
  simp [MatchesAny, key]

/-- C8: `NewFilter` succeeds exactly when the front-end parse result is
classified as a full expression, `NewMember` succeeds exactly when the
parse result is a bare field reference (a `GLOBAL`-operator
restriction), and both constructors propagate a front-end parse failure
to the caller unchanged. -/
theorem newFilter_newMember_classify (p : Except String Expression) :
    ((∃ f, NewFilter p = .ok f) ↔ ∃ out, p = .ok out ∧ isExpression out = true) ∧
    ((∃ m, NewMember p = .ok m) ↔
      ∃ out lhs rhs, p = .ok out ∧ out = .fieldRestriction "GLOBAL" lhs rhs) ∧
    (∀ e, p = .error e → NewFilter p = .error e ∧ NewMember p = .error e) := by
  cases p with
  | error e =>
    refine ⟨by simp [NewFilter], by simp [NewMember], ?_⟩
    intro e' he
    injection he with h
    subst h
    exact ⟨rfl, rfl⟩
  | ok out =>
    refine ⟨?_, ?_, by intro e' he; exact absurd he (by simp)⟩
    · by_cases hcl : isExpression out = true
      · simp [NewFilter, hcl]
      · simp [NewFilter, hcl]
    · cases out with
      | fieldRestriction op lhs rhs =>
        by_cases hop : (op == "GLOBAL") = true
        · have hop' : op = "GLOBAL" := by simpa using hop
          subst hop'
          simp [NewMember]
        · have hne : ¬op = "GLOBAL" := by simpa using hop
          simp [NewMember, hop, hne]
      | negation e => simp [NewMember]
      | conjunction es => simp [NewMember]
      | disjunction es => simp [NewMember]

/-- C8 witness: a front-end parse failure is propagated unchanged by
both constructors. -/
theorem newFilter_newMember_classify_witness :
    NewFilter (.error "boom") = .error "boom" ∧ NewMember (.error "boom") = .error "boom" :=
  (newFilter_newMember_classify (.error "boom")).2.2 "boom" rfl

end OpsAgent
